import Mathlib

/-!
Shallow embedding of the TableSortFilterPlugin table-view pipeline
(src/src/TableSortFilterPlugin/utils.ts, index.tsx and the related
plugin variants) together with proofs about the embedded functions.

Modelling conventions:
* JavaScript strings are modelled as Lean `String`; `charCodeAt` is
  modelled with `Char.toNat` (the claims only exercise ASCII, where the
  two agree).  `str.toLowerCase()` is modelled with `String.toLower`
  (again, agreeing on ASCII); emptiness of `str.trim()` is tested as
  all characters being whitespace (`trimmedEmpty`).
* `Array.prototype.sort` with a comparator is stable per the ECMAScript
  specification; it is modelled as a stable insertion sort driven by the
  comparator (`jsSortBy`).
* A JavaScript array read `a[i] || fallback` is modelled as
  `(a.get? i).getD fallback` (an out-of-range read yields `undefined`,
  and the only falsy string is the empty string, which coincides with
  the fallback used by the source).
* The numeric value of a digit run inside `naturalCompare`
  (`+str.slice(...)`) is modelled as an exact natural number; the
  JavaScript double is exact for every run the claims exercise.
-/

/-- Sort direction, from src/src/TableSortFilterPlugin/types.ts
(`type SortDirection = "asc" | "desc"`). -/
inductive SortDirection where
  | asc : SortDirection
  | desc : SortDirection
deriving DecidableEq, Repr

/-- Per-table sort state, from src/src/TableSortFilterPlugin/types.ts
(`type TableSortState = \x7bcolumnIndex, direction\x7d | null`; the `null`
case is modelled with `Option`). -/
structure TableSortState where
  columnIndex : Nat
  direction : SortDirection
deriving DecidableEq, Repr

/-! ### The natural-compare comparator

`sortTableData` (utils.ts, current variant) compares cell values with
the npm package `natural-compare`.  The package maps each character
code through a table that groups punctuation, digits, upper-case and
lower-case letters, and compares maximal digit runs by numeric value.
The embedding below mirrors that algorithm: `naturalCharCode` is the
character-code table, `naturalCompareLoop` is the main loop (reading a
character code of 0 at or beyond the end of the string, exactly as
`str.charCodeAt(pos) || 0` does), and the digit-run branch fires when
both current codes lie strictly between 66 and 76, i.e. on the nonzero
digits, as in the package source. -/

/-- Character-code mapping used by natural-compare.  Codes below 45 and
above 127 are kept; `-` maps to 65; `.` and `/` shift down by one;
digits map to 66..75; the remaining ASCII ranges are shifted so that
digits sort between punctuation and letters. -/
def naturalCharCode (n : Nat) : Nat :=
  if n < 45 ∨ 127 < n then n
  else if n < 46 then 65
  else if n < 48 then n - 1
  else if n < 58 then n + 18
  else if n < 65 then n - 11
  else if n < 91 then n + 11
  else if n < 97 then n - 37
  else if n < 123 then n + 5
  else n - 63

/-- Mapped code of the head character, 0 when the string is exhausted
(mirrors `str.charCodeAt(pos) || 0` fed through the code table). -/
def headNaturalCode : List Char → Nat
  | [] => 0
  | c :: _ => naturalCharCode c.toNat

/-- Decidable test for a decimal digit character, the characters whose
mapped code lies in 66..75. -/
def isDigitChar (c : Char) : Bool :=
  48 ≤ c.toNat && c.toNat < 58

/-- Numeric value of a digit run (models `+str.slice(...)` on a string
of decimal digits). -/
def digitRunValue (run : List Char) : Nat :=
  run.foldl (fun n c => 10 * n + (c.toNat - 48)) 0

/-- Main loop of natural-compare.  Each iteration consumes at least one
character from each remaining string, so a fuel of
`a.length + b.length + 1` can never be exhausted; the fuel only serves
to make the recursion structurally obvious. -/
def naturalCompareLoop : Nat → List Char → List Char → Int
  | 0, _, _ => 0
  | fuel + 1, a, b =>
    let codeA := headNaturalCode a
    let codeB := headNaturalCode b
    if 66 < codeA ∧ codeA < 76 ∧ 66 < codeB ∧ codeB < 76 then
      -- both heads are nonzero digits: compare the full digit runs numerically
      let runA := a.takeWhile isDigitChar
      let runB := b.takeWhile isDigitChar
      let numA := digitRunValue runA
      let numB := digitRunValue runB
      if numA ≠ numB then (if numA < numB then -1 else 1)
      else naturalCompareLoop fuel (a.dropWhile isDigitChar) (b.dropWhile isDigitChar)
    else if codeA ≠ codeB then (if codeA < codeB then -1 else 1)
    else if codeB = 0 then 0
    else naturalCompareLoop fuel a.tail b.tail

/-- The natural-compare comparator (npm package `natural-compare`, used
by `sortTableData` in utils.ts).  Equal strings short-circuit to 0. -/
def naturalCompare (a b : String) : Int :=
  if a = b then 0
  else naturalCompareLoop (a.length + b.length + 1) a.data b.data

/-! ### Stable comparator sort (model of `Array.prototype.sort`) -/

/-- Insert `x` into `l` before the first element `y` with
`cmp x y ≤ 0`; the building block of the stable sort. -/
def insertCmp (cmp : α → α → Int) (x : α) : List α → List α
  | [] => [x]
  | y :: ys => if cmp x y ≤ 0 then x :: y :: ys else y :: insertCmp cmp x ys

/-- Stable sort by a comparator: the model of
`[...rows].sort((a, b) => cmp(a, b))` (ECMAScript sort is stable, and
for a consistent comparator every stable sort produces the same list). -/
def jsSortBy (cmp : α → α → Int) : List α → List α
  | [] => []
  | x :: xs => insertCmp cmp x (jsSortBy cmp xs)

/-! ### The string pipeline: getTableData / sortTableData /
filterTableData / updateTableData -/

/-- Row comparator built by `sortTableData` in utils.ts: read the sort
column of each row (`a[columnIndex] || ''`), compare with
natural-compare, and negate the result for descending order. -/
def rowCompare (columnIndex : Nat) (direction : SortDirection)
    (a b : List String) : Int :=
  let aVal := (a.get? columnIndex).getD ""
  let bVal := (b.get? columnIndex).getD ""
  let comparison := naturalCompare aVal bVal
  if direction = SortDirection.asc then comparison else -comparison

/-- Embedding of `sortTableData` (utils.ts, current variant): keep
`data[0]` as the header row and stable-sort `data.slice(1)` by the
natural comparison of the sort column, negated for descending order. -/
def sortTableData (data : List (List String)) (columnIndex : Nat)
    (direction : SortDirection) : List (List String) :=
  let headerRow := data.headD []
  let dataRows := data.tail
  let sortedRows := jsSortBy (rowCompare columnIndex direction) dataRows
  headerRow :: sortedRows

/-- Substring containment on character lists: JavaScript
`s.includes(sub)`. -/
def strContainsAux (s sub : List Char) : Bool :=
  match s with
  | [] => sub.isEmpty
  | _ :: t => sub.isPrefixOf s || strContainsAux t sub

/-- Lower-cased character sequence of a string: model of JavaScript
`s.toLowerCase()` (the claims only exercise ASCII, where
`Char.toLower` and the JavaScript conversion agree). -/
def toLowerChars (s : String) : List Char :=
  s.data.map Char.toLower

/-- JavaScript `s.toLowerCase().includes(sub.toLowerCase())`, the match
used by the filter. -/
def strContainsCI (s sub : String) : Bool :=
  strContainsAux (toLowerChars s) (toLowerChars sub)

/-- The row predicate used by `filterTableData`: every filter entry
`(columnIndex, filterValue)` must match, where a match is
case-insensitive substring containment on `row[columnIndex] || ''`. -/
def rowMatchesFilters (filters : List (Nat × String)) (row : List String) : Bool :=
  filters.all fun e =>
    let cellValue := (row.get? e.1).getD ""
    strContainsCI cellValue e.2

/-- Embedding of `filterTableData` (utils.ts): with no filter entries
the data is returned unchanged; otherwise the header row `data[0]` is
kept and the data rows are filtered by `rowMatchesFilters`.  The
`TableFilterState` object is modelled as an association list from
column index to filter value (its enumeration order is irrelevant
because `every` is order-independent). -/
def filterTableData (data : List (List String))
    (filters : List (Nat × String)) : List (List String) :=
  if filters.isEmpty then data
  else
    let headerRow := data.headD []
    let dataRows := data.tail
    let filteredRows := dataRows.filter (rowMatchesFilters filters)
    headerRow :: filteredRows

/-! ### Live table model (rows of cells holding content nodes)

The Lexical node tree behind a table is modelled just deeply enough for
the functions the claims exercise: a table is a list of rows, a row a
list of cells, and a cell holds an ordered sequence of content nodes
(paragraphs containing inline text and link runs).  The guards
`$isTableRowNode` / `$isTableCellNode` in the source are vacuous on
this model because it only ever contains rows and cells.  A node's
plain-text value is the concatenation of its leaf text, the derived
value the spec assigns to cells. -/

/-- Inline content node inside a paragraph: a text run, or a link (a
URL plus the text runs inside it). -/
inductive InlineNode where
  | text : String → InlineNode
  | link : String → List String → InlineNode
deriving DecidableEq, Repr

/-- Block content node inside a table cell: a paragraph of inline
nodes. -/
inductive BlockNode where
  | paragraph : List InlineNode → BlockNode
deriving DecidableEq, Repr

/-- Plain-text value of one inline node. -/
def inlineText : InlineNode → String
  | .text s => s
  | .link _ runs => String.join runs

/-- Plain-text value of one block node (concatenation of the leaf
text of its inline children). -/
def blockText : BlockNode → String
  | .paragraph children => String.join (children.map inlineText)

/-- A table cell is an ordered sequence of block content nodes. -/
abbrev TableCell := List BlockNode

/-- A table row is an ordered sequence of cells. -/
abbrev TableRow := List TableCell

/-- A table is an ordered sequence of rows; row 0 is the header row. -/
abbrev LTable := List TableRow

/-- Map with the element index, starting from `start`; the functional
rendering of `forEach((x, index) => ...)` loops that rewrite elements
in place. -/
def mapIdxFrom (f : Nat → α → β) : Nat → List α → List β
  | _, [] => []
  | i, x :: xs => f i x :: mapIdxFrom f (i + 1) xs

/-- Cell text helper: a convenient name for `cell.getTextContent()`. -/
def cellText (cell : TableCell) : String :=
  String.join (cell.map blockText)

/-- Embedding of `$getTableData` (utils.ts): the matrix of plain-text
cell values, in row/cell order. -/
def getTableData (tableNode : LTable) : List (List String) :=
  tableNode.map fun row => row.map cellText

/-- Test for `s.trim() === \'\'`: a trimmed string is empty exactly
when every character is whitespace.  (JavaScript `trim` strips
whitespace from both ends, so the residue is empty iff nothing but
whitespace was present.) -/
def trimmedEmpty (s : String) : Bool :=
  s.data.all Char.isWhitespace

/-- New content written into a cell by `$updateTableData`:
`cell.clear()` followed, when `cellText.trim()` is nonempty, by
appending a fresh paragraph holding one text node. -/
def updatedCellContent (s : String) : TableCell :=
  if trimmedEmpty s then [] else [BlockNode.paragraph [InlineNode.text s]]

/-- Embedding of `$updateTableData` (utils.ts): for every data index
that falls inside the live table (`rowIndex < rows.length`,
`cellIndex < cells.length`) the cell is cleared and rewritten from the
string; rows and cells beyond the supplied data are left untouched.
The source iterates the data and writes into the table in place; the
equivalent functional rendering iterates the table and looks the
position up in the data. -/
def updateTableData (tableNode : LTable) (data : List (List String)) : LTable :=
  mapIdxFrom
    (fun rowIndex row =>
      match data.get? rowIndex with
      | none => row
      | some rowData =>
        mapIdxFrom
          (fun cellIndex cell =>
            match rowData.get? cellIndex with
            | none => cell
            | some s => updatedCellContent s)
          0 row)
    0 tableNode

/-! ### Snapshot capture and restore

`$captureOriginalTableChildren` / `$restoreOriginalTableChildren`
(utils.ts, snapshot variant) store, per position key
`` `${rowIndex}-${cellIndex}` ``, the array `cell.getChildren().slice()`
of child-node references.  Lexical resolves a node reference by its
stable key on every read and write, so the referenced content lives in
a shared store; the embedding keeps that store as a function
`content : Nat → String` from node reference to its plain-text content
and lets cells hold lists of node references.  `slice()` copies the
reference array only, which the functional model renders by storing
the value of the reference list, not the nodes behind it. -/

/-- Table whose cells hold child-node references into the shared node
store. -/
abbrev RefTable := List (List (List Nat))

/-- Position key `` `${rowIndex}-${cellIndex}` `` used by the snapshot
map. -/
def cellPositionKey (rowIndex cellIndex : Nat) : String :=
  toString rowIndex ++ "-" ++ toString cellIndex

/-- Embedding of `$captureOriginalTableChildren` (utils.ts): walk the
rows and cells in order and record, per position key, a copy of the
cell's child-reference array (`getChildren().slice()`). -/
def captureOriginalTableChildren (tableNode : RefTable) : List (String × List Nat) :=
  (mapIdxFrom
    (fun rowIndex row =>
      mapIdxFrom
        (fun cellIndex cell => (cellPositionKey rowIndex cellIndex, cell))
        0 row)
    0 tableNode).flatten

/-- Embedding of `$restoreOriginalTableChildren` (utils.ts): walk the
live rows and cells; where the snapshot has an entry for the position
key, clear the cell and append the stored children (rendering
`cell.clear()` plus the appends as replacing the child list); cells
without an entry, and snapshot entries whose position no longer exists,
are skipped.  The embedding is a total function: no failure case
exists. -/
def restoreOriginalTableChildren (tableNode : RefTable)
    (originalChildren : List (String × List Nat)) : RefTable :=
  mapIdxFrom
    (fun rowIndex row =>
      mapIdxFrom
        (fun cellIndex cell =>
          match List.lookup (cellPositionKey rowIndex cellIndex) originalChildren with
          | some children => children
          | none => cell)
        0 row)
    0 tableNode

/-- Content sequence denoted by a snapshot entry: the stored node
references resolved through the shared node store.  This is what the
snapshot reproduces on restore. -/
def snapshotCellContent (snapshot : List (String × List Nat))
    (content : Nat → String) (rowIndex cellIndex : Nat) : Option (List String) :=
  (List.lookup (cellPositionKey rowIndex cellIndex) snapshot).map
    fun children => children.map content

/-- In-place edit of one node's content in the shared node store
(model of mutating a live node, e.g. `textNode.setTextContent`; every
later key-based read sees the new content). -/
def updateNodeContent (content : Nat → String) (n : Nat) (s : String) : Nat → String :=
  fun m => if m = n then s else content m

/-! ### The filter command handler (index.tsx, current variant)

`FILTER_TABLE_COLUMN_COMMAND` updates the filter map (deleting the
entry when the value trims to empty, otherwise writing it), then reads
the table as it currently stands with `$getTableData`, filters that
current data, and writes the result back with `$updateTableData`. -/

/-- State touched by the filter command for one table: the filter map
and the live table. -/
structure FilterCmdState where
  filters : List (Nat × String)
  tableNode : LTable

/-- Filter-map update performed by the handler: `delete` on an empty
trimmed value, otherwise write the entry for the column. -/
def setFilterEntry (filters : List (Nat × String)) (columnIndex : Nat)
    (filterValue : String) : List (Nat × String) :=
  if trimmedEmpty filterValue then
    filters.filter fun e => e.1 ≠ columnIndex
  else if filters.any fun e => e.1 = columnIndex then
    filters.map fun e => if e.1 = columnIndex then (columnIndex, filterValue) else e
  else
    filters ++ [(columnIndex, filterValue)]

/-- Embedding of the `FILTER_TABLE_COLUMN_COMMAND` handler
(index.tsx): update the filter map, then filter the CURRENT table data
and write it back. -/
def filterCommand (s : FilterCmdState) (columnIndex : Nat)
    (filterValue : String) : FilterCmdState :=
  let newFilters := setFilterEntry s.filters columnIndex filterValue
  let data := getTableData s.tableNode
  let filteredData := filterTableData data newFilters
  { filters := newFilters, tableNode := updateTableData s.tableNode filteredData }

/-! ### The header-click sort handler (index.tsx, current variant)

The handler keyed by table cycles `null → asc → desc → null` on
successive clicks of one column's sort control; a click on a different
column restarts at `asc`.  On the first click the original table data
is captured; the click back to `null` re-applies that original data.
The same cycle appears verbatim in the unnamed plugin variant
(part_004). -/

/-- State touched by the click handler for one table: its sort state,
its captured original data, and the live table. -/
structure SortClickState where
  sortState : Option TableSortState
  originalData : Option (List (List String))
  tableNode : LTable

/-- Embedding of the sort-click handler (index.tsx `handleClick`): read
the current data, capture it as original on the first click, step the
`null → asc → desc → null` cycle for the clicked column, and write the
chosen data (sorted, or the captured original) back into the table. -/
def handleSortClick (columnIndex : Nat) (s : SortClickState) : SortClickState :=
  let data := getTableData s.tableNode
  let originalData :=
    match s.originalData with
    | none => some data
    | some o => some o
  let step :=
    match s.sortState with
    | none =>
      (some (TableSortState.mk columnIndex SortDirection.asc),
        sortTableData data columnIndex SortDirection.asc)
    | some current =>
      if current.columnIndex ≠ columnIndex then
        (some (TableSortState.mk columnIndex SortDirection.asc),
          sortTableData data columnIndex SortDirection.asc)
      else if current.direction = SortDirection.asc then
        (some (TableSortState.mk columnIndex SortDirection.desc),
          sortTableData data columnIndex SortDirection.desc)
      else
        (none, originalData.getD data)
  { sortState := step.1
  , originalData := originalData
  , tableNode := updateTableData s.tableNode step.2 }

/-! ### The unified view pipeline of the latest variant -/

/-- Single-column filter directive of the latest variant
(part_006): a column index and a filter value. -/
structure FilterDirective where
  columnIndex : Nat
  filterValue : String
deriving DecidableEq, Repr

/-- Modelled from the spec: `applyTableView` is imported and called by
the latest plugin variant (part_006) but its implementation is not in
the source tree.  Per the spec's composition rule the view is always
recomputed from the original snapshot: apply the sort directive (if
any) to the original row data, then the filter directive (if any) to
the sorted rows. -/
def applyTableView (originalData : List (List String))
    (sortState : Option TableSortState)
    (filterState : Option FilterDirective) : List (List String) :=
  let sorted :=
    match sortState with
    | some st => sortTableData originalData st.columnIndex st.direction
    | none => originalData
  match filterState with
  | some f => filterTableData sorted [(f.columnIndex, f.filterValue)]
  | none => sorted

/-- View-pipeline state of the latest variant: the captured original
row data and the currently displayed row data. -/
structure ViewState where
  originalData : List (List String)
  displayed : List (List String)

/-- One directive change in the latest variant: recompute the
displayed view with `applyTableView` from the snapshot. -/
def applyDirectives (s : ViewState) (sortState : Option TableSortState)
    (filterState : Option FilterDirective) : ViewState :=
  { s with displayed := applyTableView s.originalData sortState filterState }


/-! ### Concrete tables used by the closed theorems and witnesses -/

/-- One-paragraph cell holding the given text. -/
def textCell (s : String) : TableCell :=
  [BlockNode.paragraph [InlineNode.text s]]

/-- Demo table for the sort-click scenario: header `Name` over the
column values `Charlie`, `Alice`, `Bob`. -/
def clickDemoTable : LTable :=
  [[textCell "Name"], [textCell "Charlie"], [textCell "Alice"], [textCell "Bob"]]

/-- Initial click-handler state for `clickDemoTable`: no sort state, no
captured original data. -/
def clickDemoState : SortClickState :=
  { sortState := none, originalData := none, tableNode := clickDemoTable }

/-- Demo table for the filter scenario: header `N` over the column
values `A`, `AB`, `B`. -/
def filterDemoTable : LTable :=
  [[textCell "N"], [textCell "A"], [textCell "AB"], [textCell "B"]]

/-! ### Helper lemmas -/

/-- Indexed map preserves length. -/
theorem mapIdxFrom_length (f : Nat → α → β) (i : Nat) (l : List α) :
    (mapIdxFrom f i l).length = l.length := by
  induction l generalizing i with
  | nil => rfl
  | cons x xs ih => simp [mapIdxFrom, ih]

/-- Element read of an indexed map. -/
theorem mapIdxFrom_get? (f : Nat → α → β) (i n : Nat) (l : List α) :
    (mapIdxFrom f i l).get? n = (l.get? n).map fun x => f (i + n) x := by
  induction l generalizing i n with
  | nil => simp [mapIdxFrom]
  | cons x xs ih =>
    cases n with
    | zero => simp [mapIdxFrom]
    | succ m =>
      show (mapIdxFrom f (i + 1) xs).get? m = (xs.get? m).map fun x => f (i + (m + 1)) x
      rw [ih (i + 1) m]
      have harith : i + 1 + m = i + (m + 1) := by omega
      rw [harith]

/-- The comparator returns 0 on equal strings (the upfront string
equality check of natural-compare). -/
theorem naturalCompare_self (s : String) : naturalCompare s s = 0 := by
  simp [naturalCompare]

/-- Rows with equal sort-column values compare as equal, in both
directions. -/
theorem rowCompare_eq_zero {columnIndex : Nat} {direction : SortDirection}
    {a b : List String}
    (h : (a.get? columnIndex).getD "" = (b.get? columnIndex).getD "") :
    rowCompare columnIndex direction a b = 0 := by
  cases direction <;>
    (simp only [rowCompare, h, naturalCompare_self, neg_zero]; split <;> rfl)

/-- Inserting an element that fails the predicate does not change the
filtered list. -/
theorem filter_insertCmp_of_neg (cmp : α → α → Int) (p : α → Bool) (x : α)
    (l : List α) (hx : p x = false) :
    (insertCmp cmp x l).filter p = l.filter p := by
  induction l with
  | nil => simp [insertCmp, hx]
  | cons y ys ih =>
    by_cases hcmp : cmp x y ≤ 0
    · simp [insertCmp, hcmp, hx]
    · simp only [insertCmp, if_neg hcmp, List.filter_cons, ih]

/-- Inserting an element that satisfies the predicate and compares at
or before every other satisfying element prepends it to the filtered
list. -/
theorem filter_insertCmp_of_pos (cmp : α → α → Int) (p : α → Bool) (x : α)
    (l : List α) (hx : p x = true)
    (h : ∀ y ∈ l, p y = true → cmp x y ≤ 0) :
    (insertCmp cmp x l).filter p = x :: l.filter p := by
  induction l with
  | nil => simp [insertCmp, hx]
  | cons y ys ih =>
    by_cases hcmp : cmp x y ≤ 0
    · simp [insertCmp, hcmp, hx]
    · have hy : p y = false := by
        cases hpy : p y
        · rfl
        · exact absurd (h y (List.mem_cons_self y ys) hpy) hcmp
      have ih' := ih fun z hz hpz => h z (List.mem_cons_of_mem y hz) hpz
      simp only [insertCmp, if_neg hcmp, List.filter_cons, hy, ih']
      simp

/-- Stability of the comparator sort: if all elements satisfying a
predicate are pairwise tied under the comparator, the sort preserves
their subsequence. -/
theorem filter_jsSortBy (cmp : α → α → Int) (p : α → Bool) (l : List α)
    (h : ∀ x y, p x = true → p y = true → cmp x y ≤ 0) :
    (jsSortBy cmp l).filter p = l.filter p := by
  induction l with
  | nil => rfl
  | cons x xs ih =>
    cases hx : p x
    · rw [jsSortBy, filter_insertCmp_of_neg cmp p x _ hx, ih]
      simp [List.filter_cons, hx]
    · rw [jsSortBy,
        filter_insertCmp_of_pos cmp p x _ hx fun y _ hpy => h x y hx hpy, ih]
      simp [List.filter_cons, hx]

/-- Indexed map from offset 0: element read. -/
theorem mapIdxFrom_zero_get? (f : Nat → α → β) (n : Nat) (l : List α) :
    (mapIdxFrom f 0 l).get? n = (l.get? n).map fun x => f n x := by
  rw [mapIdxFrom_get?, Nat.zero_add]

/-- Row read of `updateTableData`, as a lookup into the supplied
data. -/
theorem updateTableData_get? (tableNode : LTable) (data : List (List String))
    (r : Nat) :
    (updateTableData tableNode data).get? r = (tableNode.get? r).map fun row =>
      match data.get? r with
      | none => row
      | some rowData =>
        mapIdxFrom
          (fun cellIndex cell =>
            match rowData.get? cellIndex with
            | none => cell
            | some s => updatedCellContent s)
          0 row := by
  unfold updateTableData
  rw [mapIdxFrom_get?]
  simp

/-- Cell read of a table: row lookup then cell lookup. -/
def cellAt (tableNode : LTable) (r c : Nat) : Option TableCell :=
  (tableNode.get? r).bind fun row => row.get? c

/-- Cell read of a reference table: row lookup then cell lookup. -/
def cellRefsAt (tableNode : RefTable) (r c : Nat) : Option (List Nat) :=
  (tableNode.get? r).bind fun row => row.get? c

/-! ### Claim theorems -/

/-- C3, counterexample: for the column values `b`, `` (empty), `a`
under the header `h`, ascending sort places the empty value FIRST, not
last: the result is `h, empty, a, b`, not the claimed `h, a, b,
empty`.  (natural-compare reads the code of the exhausted empty string
as 0, the smallest possible code, and has no empty-last special
case.) -/
theorem claim_C3_counterexample :
    sortTableData [["h"], ["b"], [""], ["a"]] 0 SortDirection.asc
        = [["h"], [""], ["a"], ["b"]]
    ∧ sortTableData [["h"], ["b"], [""], ["a"]] 0 SortDirection.asc
        ≠ [["h"], ["a"], ["b"], [""]] := by
  exact ⟨by decide, by decide⟩

/-- C3, amended: the sort comparator has no empty-value special case;
the empty string compares as smallest, so rows whose sort value is
empty come before all non-empty rows in ascending direction and after
them in descending direction.  For the column values `b`, `` (empty),
`a`: ascending yields `empty, a, b` and descending yields `b, a,
empty` (so the empty value is last only in descending direction). -/
theorem claim_C3_amended_thm :
    sortTableData [["h"], ["b"], [""], ["a"]] 0 SortDirection.asc
        = [["h"], [""], ["a"], ["b"]]
    ∧ sortTableData [["h"], ["b"], [""], ["a"]] 0 SortDirection.desc
        = [["h"], ["b"], ["a"], [""]] := by
  exact ⟨by decide, by decide⟩

/-- C5: for every non-empty row list, filtering with a single
directive keeps the header row unconditionally and keeps a data row
exactly when the plain-text value at the directive's column contains
the directive's substring case-insensitively; with no filter entries
`filterTableData` is the identity function. -/
theorem claim_C5 :
    (∀ (header : List String) (rows : List (List String)) (c : Nat) (sub : String),
      filterTableData (header :: rows) [(c, sub)]
        = header :: rows.filter fun row => strContainsCI ((row.get? c).getD "") sub)
    ∧ ∀ data : List (List String), filterTableData data [] = data := by
  constructor
  · intro header rows c sub
    show (header :: rows.filter (rowMatchesFilters [(c, sub)])) = _
    exact congrArg (header :: ·)
      (List.filter_congr fun row _ => by simp [rowMatchesFilters])
  · intro data
    simp [filterTableData]

/-- C6: ascending sort of the column values `item2`, `item10`, `item1`
yields the rows in the order `item1`, `item2`, `item10`: embedded
numeric runs compare by numeric value, not character by character. -/
theorem claim_C6 :
    sortTableData [["Item"], ["item2"], ["item10"], ["item1"]] 0 SortDirection.asc
      = [["Item"], ["item1"], ["item2"], ["item10"]] := by
  decide

/-- C7: for every non-empty row list and every sort or filter
directive, row 0 stays in place in the output (it is never reordered
or removed), and the data-row part of the output does not depend on
the header row at all (the header is never included in sort or filter
comparisons). -/
theorem claim_C7 :
    (∀ (header : List String) (rows : List (List String)) (c : Nat)
        (dir : SortDirection),
      (sortTableData (header :: rows) c dir).headD [] = header)
    ∧ (∀ (header header' : List String) (rows : List (List String)) (c : Nat)
        (dir : SortDirection),
      (sortTableData (header :: rows) c dir).tail
        = (sortTableData (header' :: rows) c dir).tail)
    ∧ (∀ (header : List String) (rows : List (List String))
        (filters : List (Nat × String)),
      (filterTableData (header :: rows) filters).headD [] = header)
    ∧ (∀ (header header' : List String) (rows : List (List String))
        (filters : List (Nat × String)),
      (filterTableData (header :: rows) filters).tail
        = (filterTableData (header' :: rows) filters).tail) := by
  refine ⟨fun header rows c dir => rfl, fun header header' rows c dir => rfl,
    fun header rows filters => ?_, fun header header' rows filters => ?_⟩
  · by_cases hf : filters.isEmpty <;> simp [filterTableData, hf]
  · by_cases hf : filters.isEmpty <;> simp [filterTableData, hf]

/-- C8: the sort is stable on equal sort-column values: for every row
list, sort column, direction and value, the subsequence of data rows
whose sort-column value equals that value is the same before and after
sorting (so any two tied data rows keep their relative order). -/
theorem claim_C8 :
    ∀ (header : List String) (rows : List (List String)) (c : Nat)
      (dir : SortDirection) (v : String),
      (sortTableData (header :: rows) c dir).tail.filter
          (fun row => (row.get? c).getD "" == v)
        = rows.filter fun row => (row.get? c).getD "" == v := by
  intro header rows c dir v
  show (jsSortBy (rowCompare c dir) rows).filter _ = _
  apply filter_jsSortBy
  intro x y hx hy
  have hx' : (x.get? c).getD "" = v := by simpa using hx
  have hy' : (y.get? c).getD "" = v := by simpa using hy
  exact le_of_eq (rowCompare_eq_zero (hx'.trans hy'.symm))

/-- C9: restore is a total function that rewrites the content of
exactly those live cells whose position key has a snapshot entry: the
table keeps its row count and per-row cell counts, a live cell with an
entry receives the entry's children, a live cell without an entry is
unchanged, and snapshot entries whose position no longer exists in the
table are skipped (the output is determined by the live positions
alone). -/
theorem claim_C9 :
    ∀ (tableNode : RefTable) (snapshot : List (String × List Nat)),
      (restoreOriginalTableChildren tableNode snapshot).length = tableNode.length
      ∧ (∀ r, ((restoreOriginalTableChildren tableNode snapshot).get? r).map
            List.length = (tableNode.get? r).map List.length)
      ∧ ∀ r c, cellRefsAt (restoreOriginalTableChildren tableNode snapshot) r c
          = (cellRefsAt tableNode r c).map fun cell =>
              (List.lookup (cellPositionKey r c) snapshot).getD cell := by
  intro tableNode snapshot
  refine ⟨mapIdxFrom_length _ _ _, fun r => ?_, fun r c => ?_⟩
  · unfold restoreOriginalTableChildren
    rw [mapIdxFrom_get?]
    cases tableNode.get? r <;> simp [mapIdxFrom_length]
  · unfold restoreOriginalTableChildren cellRefsAt
    rw [mapIdxFrom_zero_get?]
    cases tableNode.get? r with
    | none => rfl
    | some row =>
      show (mapIdxFrom _ 0 row).get? c = (row.get? c).map _
      rw [mapIdxFrom_zero_get?]
      cases row.get? c with
      | none => rfl
      | some cell => cases List.lookup (cellPositionKey r c) snapshot <;> rfl

/-- C10: the write-back never adds or removes rows or cells (row count
and every per-row cell count are unchanged), every live row whose
index lies beyond the supplied data keeps its previous content, and
every live cell whose cell index lies beyond the supplied row data
keeps its previous content — in particular, data rows dropped by a
filter remain physically present with their old content. -/
theorem claim_C10 :
    ∀ (tableNode : LTable) (data : List (List String)),
      (updateTableData tableNode data).length = tableNode.length
      ∧ (∀ r, ((updateTableData tableNode data).get? r).map List.length
          = (tableNode.get? r).map List.length)
      ∧ (∀ r, data.length ≤ r →
          (updateTableData tableNode data).get? r = tableNode.get? r)
      ∧ ∀ r c rowData, data.get? r = some rowData → rowData.length ≤ c →
          cellAt (updateTableData tableNode data) r c = cellAt tableNode r c := by
  intro tableNode data
  refine ⟨mapIdxFrom_length _ _ _, fun r => ?_, fun r hr => ?_,
    fun r c rowData hrow hc => ?_⟩
  · rw [updateTableData_get?]
    cases tableNode.get? r with
    | none => rfl
    | some row =>
      cases data.get? r <;> simp [mapIdxFrom_length]
  · rw [updateTableData_get?]
    rw [List.get?_eq_none.mpr hr]
    cases tableNode.get? r <;> rfl
  · unfold cellAt
    rw [updateTableData_get?, hrow]
    cases tableNode.get? r with
    | none => rfl
    | some row =>
      show (mapIdxFrom _ 0 row).get? c = row.get? c
      rw [mapIdxFrom_zero_get?]
      simp only [List.get?_eq_none.mpr hc]
      cases row.get? c <;> rfl

/-- C2, counterexample: capture copies only the array of child-node
references (`getChildren().slice()`), not the nodes themselves.  For a
one-cell table whose single child node reads `x`, an in-place edit of
that node's content to `y` after capture changes the content sequence
the captured snapshot entry denotes, so the captured copy is not deep
and not independent of every later mutation of the live cell's
content. -/
theorem claim_C2_counterexample :
    snapshotCellContent (captureOriginalTableChildren [[[0]]])
        (fun _ => "x") 0 0 = some ["x"]
    ∧ snapshotCellContent (captureOriginalTableChildren [[[0]]])
        (updateNodeContent (fun _ => "x") 0 "y") 0 0 = some ["y"]
    ∧ (some ["y"] : Option (List String)) ≠ some ["x"] := by
  exact ⟨by decide, by decide, by decide⟩

/-- C2, amended: capture records per cell a shallow copy of the cell's
child-reference sequence; the captured entry is a value independent of
later structural replacement of the cell's child list, and an edit of
a node that the entry does not reference leaves the entry's denoted
content unchanged — but an in-place edit of a referenced node's
content remains visible through the snapshot (the copy is shallow, not
deep). -/
theorem claim_C2_amended_thm :
    ∀ (tableNode : RefTable) (content : Nat → String) (n : Nat) (s : String)
      (r c : Nat),
      n ∉ (List.lookup (cellPositionKey r c)
          (captureOriginalTableChildren tableNode)).getD [] →
      snapshotCellContent (captureOriginalTableChildren tableNode)
          (updateNodeContent content n s) r c
        = snapshotCellContent (captureOriginalTableChildren tableNode)
            content r c := by
  intro tableNode content n s r c hn
  unfold snapshotCellContent
  cases hk : List.lookup (cellPositionKey r c)
      (captureOriginalTableChildren tableNode) with
  | none => rfl
  | some children =>
    rw [hk, Option.getD_some] at hn
    simp only [Option.map_some']
    refine congrArg some (List.map_congr_left fun m hm => ?_)
    have hmn : m ≠ n := fun hcontra => hn (hcontra ▸ hm)
    simp [updateNodeContent, hmn]

/-- Witness for the amended C2 theorem: in the one-cell table whose
cell references node 0, editing the unreferenced node 1 leaves the
snapshot's denoted content unchanged. -/
theorem claim_C2_amended_witness :
    (1 : Nat) ∉ (List.lookup (cellPositionKey 0 0)
        (captureOriginalTableChildren [[[0]]])).getD []
    ∧ snapshotCellContent (captureOriginalTableChildren [[[0]]])
          (updateNodeContent (fun _ => "x") 1 "z") 0 0
        = snapshotCellContent (captureOriginalTableChildren [[[0]]])
            (fun _ => "x") 0 0 :=
  ⟨by decide, claim_C2_amended_thm [[[0]]] (fun _ => "x") 1 "z" 0 0 (by decide)⟩

/-- C1, counterexample: the `FILTER_TABLE_COLUMN_COMMAND` handler in
index.tsx filters the table's CURRENT contents, not the original
snapshot.  Starting from the column values `A`, `AB`, `B` (header
`N`), filtering by `b` and then by `a` leaves the displayed data
`AB, B, B` (the row `A` was overwritten by the first filter and a
stale duplicate of `B` remains), whereas recomputing the `a` filter
from the original row set yields `A, AB, B` — so a filter operation
does operate on a previously filtered partial result. -/
theorem claim_C1_counterexample :
    getTableData (filterCommand (filterCommand
        { filters := [], tableNode := filterDemoTable } 0 "b") 0 "a").tableNode
      = [["N"], ["AB"], ["B"], ["B"]]
    ∧ getTableData (updateTableData filterDemoTable
        (filterTableData (getTableData filterDemoTable) [(0, "a")]))
      = [["N"], ["A"], ["AB"], ["B"]]
    ∧ ([["N"], ["AB"], ["B"], ["B"]] : List (List String))
      ≠ [["N"], ["A"], ["AB"], ["B"]] := by
  exact ⟨by decide, by decide, by decide⟩

/-- C1, amended: the recompute-from-snapshot composition rule holds
for the unified pipeline of the latest variant (the spec-modelled
`applyTableView` called from part_006): the displayed view is computed
from the original snapshot by applying the sort directive and then the
filter directive, and it does not depend on previously displayed
partial results — re-deriving the view after an earlier directive
application yields exactly the view derived directly.  The
command-handler path of index.tsx does not follow this rule (see the
counterexample). -/
theorem claim_C1_amended_thm :
    (∀ (s : ViewState) (sort1 : Option TableSortState)
        (filter1 : Option FilterDirective) (sort2 : Option TableSortState)
        (filter2 : Option FilterDirective),
      (applyDirectives (applyDirectives s sort1 filter1) sort2 filter2).displayed
        = (applyDirectives s sort2 filter2).displayed)
    ∧ ∀ (originalData : List (List String)) (st : TableSortState)
        (f : FilterDirective),
      applyTableView originalData (some st) (some f)
        = filterTableData
            (sortTableData originalData st.columnIndex st.direction)
            [(f.columnIndex, f.filterValue)] := by
  exact ⟨fun s sort1 filter1 sort2 filter2 => rfl, fun originalData st f => rfl⟩

/-- C4: successive clicks on one column's sort control cycle the sort
state `none → ascending → descending → none`; a click on a different
column always moves to that column ascending (the single per-table
sort state means at most one column is sorted at a time); and for the
column values `Charlie`, `Alice`, `Bob`, the three clicks display
`Alice, Bob, Charlie`, then `Charlie, Bob, Alice`, then restore the
original `Charlie, Alice, Bob` with the sort state back at none. -/
theorem claim_C4 :
    (∀ (od : Option (List (List String))) (t : LTable) (c : Nat),
      (handleSortClick c
          { sortState := none, originalData := od, tableNode := t }).sortState
        = some { columnIndex := c, direction := SortDirection.asc })
    ∧ (∀ (od : Option (List (List String))) (t : LTable) (c : Nat),
      (handleSortClick c
          { sortState := some { columnIndex := c, direction := SortDirection.asc }
          , originalData := od, tableNode := t }).sortState
        = some { columnIndex := c, direction := SortDirection.desc })
    ∧ (∀ (od : Option (List (List String))) (t : LTable) (c : Nat),
      (handleSortClick c
          { sortState := some { columnIndex := c, direction := SortDirection.desc }
          , originalData := od, tableNode := t }).sortState
        = none)
    ∧ (∀ (od : Option (List (List String))) (t : LTable) (c c' : Nat)
        (d : SortDirection), c' ≠ c →
      (handleSortClick c
          { sortState := some { columnIndex := c', direction := d }
          , originalData := od, tableNode := t }).sortState
        = some { columnIndex := c, direction := SortDirection.asc })
    ∧ getTableData (handleSortClick 0 clickDemoState).tableNode
        = [["Name"], ["Alice"], ["Bob"], ["Charlie"]]
    ∧ getTableData
          (handleSortClick 0 (handleSortClick 0 clickDemoState)).tableNode
        = [["Name"], ["Charlie"], ["Bob"], ["Alice"]]
    ∧ getTableData (handleSortClick 0 (handleSortClick 0
          (handleSortClick 0 clickDemoState))).tableNode
        = [["Name"], ["Charlie"], ["Alice"], ["Bob"]]
    ∧ (handleSortClick 0 (handleSortClick 0
          (handleSortClick 0 clickDemoState))).sortState = none := by
  refine ⟨fun od t c => rfl, fun od t c => ?_, fun od t c => ?_,
    fun od t c c' d h => ?_, by decide, by decide, by decide, by decide⟩
  · simp [handleSortClick]
  · simp [handleSortClick]
  · simp [handleSortClick, h]

/-- Witness for C4: a click on column 0 while column 1 is sorted
descending moves the sort state to column 0 ascending. -/
theorem claim_C4_witness :
    (1 : Nat) ≠ 0
    ∧ (handleSortClick 0
        { sortState := some { columnIndex := 1, direction := SortDirection.desc }
        , originalData := none, tableNode := [] }).sortState
      = some { columnIndex := 0, direction := SortDirection.asc } :=
  ⟨by decide, claim_C4.2.2.2.1 none [] 0 1 SortDirection.desc (by decide)⟩

/-- Witness for C10: on a one-row, two-cell table with one supplied
data row of one cell, the row beyond the data and the cell beyond the
row data keep their previous content. -/
theorem claim_C10_witness :
    (updateTableData [[textCell "a", textCell "b"], [textCell "c"]] [["x"]]).get? 1
      = ([[textCell "a", textCell "b"], [textCell "c"]] : LTable).get? 1
    ∧ cellAt (updateTableData [[textCell "a", textCell "b"], [textCell "c"]]
        [["x"]]) 0 1
      = cellAt [[textCell "a", textCell "b"], [textCell "c"]] 0 1 :=
  ⟨(claim_C10 [[textCell "a", textCell "b"], [textCell "c"]] [["x"]]).2.2.1 1
      (by decide),
    (claim_C10 [[textCell "a", textCell "b"], [textCell "c"]] [["x"]]).2.2.2 0 1
      ["x"] (by decide) (by decide)⟩
